import Mathlib

/-!
Verification of the surrogate-model utility module (`rbfopt_utils.py`).

Shallow embedding conventions:
* Python floats are modelled by exact rationals (`ℚ`).  The two
  transcendental operations used by the module (natural logarithm and
  square root) are not representable over `ℚ`; they are passed in as
  abstract oracle parameters `log sqrt : ℚ → ℚ`, and every theorem below
  is quantified over these oracles (no theorem depends on their values).
* `numpy` arrays are modelled by `List ℚ` (1D) and `List (List ℚ)` (2D,
  row major).
* Python exceptions are modelled by `Except String` for functions that
  `raise`, and by the dedicated `PyResult` type for the two linear-algebra
  routines, where the distinction between a propagated exception and a
  `sys.exit()` call matters.
* The numeric linear-algebra primitives of `numpy.linalg` (matrix
  inversion, linear solve) are modelled as oracle parameters returning
  `Option`: `none` models `numpy.linalg.LinAlgError` being raised by the
  primitive on a singular or ill-conditioned input.
-/

/-- Configuration bundle `RbfSettings` (fields consumed by the utility
module; the settings module itself is out of the verified core). -/
structure RbfSettings where
  rbf : String
  domain_scaling : String
  function_scaling : String
  dynamism_clipping : String
  dynamism_threshold : ℚ
  eps_zero : ℚ
  fast_objfun_rel_error : ℚ
  fast_objfun_abs_error : ℚ
  target_objval : ℚ

/-- Modelled from the spec: `rbfopt_config.GAMMA`, the fixed smoothing
constant `γ > 0` of the multiquadric kernel.  The config module is not part
of the given sources; its concrete value is irrelevant to every theorem
below. -/
def GAMMA : ℚ := 1

/-- Cubic RBF kernel: `f(r) = r^3`. -/
def _cubic (r : ℚ) : ℚ := r * r * r

/-- Thin plate spline kernel: `f(r) = r^2 log r`, with the `r = 0`
singularity removed by returning `0`. -/
def _thin_plate_spline (log : ℚ → ℚ) (r : ℚ) : ℚ :=
  if r = 0 then 0 else log r * r * r

/-- Linear RBF kernel: `f(r) = r`. -/
def _linear (r : ℚ) : ℚ := r

/-- Multiquadric kernel: `f(r) = sqrt (r^2 + γ^2)`. -/
def _multiquadric (sqrt : ℚ → ℚ) (r : ℚ) : ℚ :=
  sqrt (r * r + GAMMA * GAMMA)

/-- Source `get_rbf_function`: dispatch on the kernel name.  The Python function
has no final `else`, so an unrecognized kernel name falls off the end of
the `if` chain and yields `None`, modelled by `none`. -/
def get_rbf_function (log sqrt : ℚ → ℚ) (settings : RbfSettings) :
    Option (ℚ → ℚ) :=
  if settings.rbf = "cubic" then some _cubic
  else if settings.rbf = "thin_plate_spline" then
    some (_thin_plate_spline log)
  else if settings.rbf = "linear" then some _linear
  else if settings.rbf = "multiquadric" then some (_multiquadric sqrt)
  else none

/-- Source `get_degree_polynomial`: degree of the polynomial tail, with sentinel
`-1` for an unrecognized kernel. -/
def get_degree_polynomial (settings : RbfSettings) : ℤ :=
  if settings.rbf = "cubic" ∨ settings.rbf = "thin_plate_spline" then 1
  else if settings.rbf = "linear" ∨ settings.rbf = "multiquadric" then 0
  else -1

/-- Source `get_size_P_matrix`: number of columns of the P block, with sentinel
`0` for an unrecognized kernel. -/
def get_size_P_matrix (settings : RbfSettings) (n : ℕ) : ℕ :=
  if settings.rbf = "cubic" ∨ settings.rbf = "thin_plate_spline" then n + 1
  else if settings.rbf = "linear" ∨ settings.rbf = "multiquadric" then 1
  else 0

/-- Three-list analogue of `List.zipWith`, used to express componentwise
operations over parallel coordinate lists. -/
def zipWith3 {α β γ δ : Type} (f : α → β → γ → δ) :
    List α → List β → List γ → List δ
  | a :: as, b :: bs, c :: cs => f a b c :: zipWith3 f as bs cs
  | _, _, _ => []

/-- One corner-selection vector per corner, in the order produced by
`itertools.product('lu', repeat=n)`: `false` selects the lower bound,
`true` the upper bound, the first coordinate varies slowest. -/
def corner_choices : ℕ → List (List Bool)
  | 0 => [[]]
  | n + 1 =>
    ([false, true]).flatMap (fun b => (corner_choices n).map (fun c => b :: c))

/-- The corner point selected by a choice vector `c`: coordinate `j` is
`var_upper[j]` when `c[j]` is `true`, else `var_lower[j]`. -/
def corner_point (var_lower var_upper : List ℚ) (c : List Bool) : List ℚ :=
  zipWith3 (fun b lo hi => if b then hi else lo) c var_lower var_upper

/-- Source `get_all_corners`: all `2^n` corner points of the box, one per row, in
`itertools.product` order. -/
def get_all_corners (var_lower var_upper : List ℚ) : List (List ℚ) :=
  (corner_choices var_lower.length).map (corner_point var_lower var_upper)

/-- Source `distance`: Euclidean distance `sqrt (dot (p - q) (p - q))` between two
points, via the abstract square-root oracle. -/
def distance (sqrt : ℚ → ℚ) (p1 p2 : List ℚ) : ℚ :=
  sqrt (((p1.zip p2).map (fun x => (x.1 - x.2) * (x.1 - x.2))).sum)

/-- Zero out matrix entries smaller than `eps` in absolute value, as in
`Amat[np.abs(Amat) < settings.eps_zero] = 0`. -/
def zero_out_small (eps : ℚ) (m : List (List ℚ)) : List (List ℚ) :=
  m.map (fun row => row.map (fun x => if |x| < eps then 0 else x))

/-- Assemble `A = [Phi P; P^T 0]` from the node positions and a given P
block, then snap small entries to zero. -/
def assemble_rbf_matrix (eps : ℚ) (sqrt : ℚ → ℚ) (rbf : ℚ → ℚ) (p : ℕ)
    (node_pos P : List (List ℚ)) : List (List ℚ) :=
  let Phi := node_pos.map (fun xi => node_pos.map
    (fun xj => rbf (distance sqrt xi xj)))
  let top := List.zipWith (fun a b => a ++ b) Phi P
  let bottom := (List.range p).map
    (fun j => P.map (fun row => row.getD j 0) ++ List.replicate p 0)
  zero_out_small eps (top ++ bottom)

/-- Source `get_rbf_matrix`: build the RBF system matrix.  For an unrecognized
kernel, `get_size_P_matrix` returns the sentinel `0`, which is neither
`n + 1` nor `1`, and the Python code raises
`ValueError('Rbf "<name>" not implemented yet')`; this is the
`Except.error` branch.  (The `none` branch of the kernel lookup is taken
exactly in that same unrecognized-kernel case and carries the same
error.) -/
def get_rbf_matrix (log sqrt : ℚ → ℚ) (settings : RbfSettings) (n k : ℕ)
    (node_pos : List (List ℚ)) : Except String (List (List ℚ)) :=
  match get_rbf_function log sqrt settings with
  | none =>
    Except.error ("Rbf \"" ++ settings.rbf ++ "\" not implemented yet")
  | some rbf =>
    let p := get_size_P_matrix settings n
    if p = n + 1 then
      -- P keeps the node coordinates and appends a 1
      Except.ok (assemble_rbf_matrix settings.eps_zero sqrt rbf p node_pos
        (node_pos.map (fun x => x ++ [1])))
    else if p = 1 then
      -- P is an all-one column of height k
      Except.ok (assemble_rbf_matrix settings.eps_zero sqrt rbf p node_pos
        (List.replicate k [1]))
    else
      Except.error ("Rbf \"" ++ settings.rbf ++ "\" not implemented yet")

/-- Outcome of a Python call as observed by its caller: a returned value,
a propagated exception, or process termination via `sys.exit()`. -/
inductive PyResult (α : Type) where
  | ok : α → PyResult α
  | raised : String → PyResult α
  | exited : PyResult α
deriving DecidableEq

/-- Returns `true` exactly when the outcome is a propagated exception. -/
def isRaised {α : Type} : PyResult α → Bool
  | .raised _ => true
  | _ => false

/-- Source `get_matrix_inverse`: attempt the numeric inversion (oracle `inv`,
`none` modelling a raised `numpy.linalg.LinAlgError`); on failure the
exception is logged and re-raised (`raise e`), on success small entries of
the inverse are snapped to zero. -/
def get_matrix_inverse (inv : List (List ℚ) → Option (List (List ℚ)))
    (settings : RbfSettings) (Amat : List (List ℚ)) :
    PyResult (List (List ℚ)) :=
  match inv Amat with
  | none => .raised "LinAlgError"
  | some m => .ok (zero_out_small settings.eps_zero m)

/-- Source `get_rbf_coefficients`: build the right-hand side `[values; 0_p]` and
attempt the numeric linear solve (oracle `solve`, `none` modelling a
raised `numpy.linalg.LinAlgError`); on failure the Python code prints the
exception and calls `sys.exit()` — the process terminates (`exited`), the
exception is NOT re-raised; on success the solution is split into the
lambda part (first `k` entries) and the h part (the rest). -/
def get_rbf_coefficients
    (solve : List (List ℚ) → List ℚ → Option (List ℚ))
    (settings : RbfSettings) (n k : ℕ) (Amat : List (List ℚ))
    (node_val : List ℚ) : PyResult (List ℚ × List ℚ) :=
  let p := get_size_P_matrix settings n
  let rhs := node_val ++ List.replicate p 0
  match solve Amat rhs with
  | none => .exited
  | some sol => .ok (sol.take k, sol.drop k)

/-- Source `get_fast_error_bounds`: the interval
`(-(|v| rel + abs), |v| rel + abs)` of plausible deviation of a fast
(approximate) evaluation. -/
def get_fast_error_bounds (settings : RbfSettings) (value : ℚ) : ℚ × ℚ :=
  (-|value| * settings.fast_objfun_rel_error - settings.fast_objfun_abs_error,
   |value| * settings.fast_objfun_rel_error + settings.fast_objfun_abs_error)

/-- Source `bulk_get_fast_error_bounds`: elementwise version; row `i` pairs the
lower and upper deviation of `values[i]`. -/
def bulk_get_fast_error_bounds (settings : RbfSettings) (values : List ℚ) :
    List (ℚ × ℚ) :=
  values.map (fun v =>
    (-|v| * settings.fast_objfun_rel_error - settings.fast_objfun_abs_error,
     |v| * settings.fast_objfun_rel_error + settings.fast_objfun_abs_error))

/-- Source `compute_gap`: relative distance of the best value from the target. -/
def compute_gap (settings : RbfSettings) (fmin : ℚ) (is_best_fast : Bool) :
    ℚ :=
  let gap_den :=
    if |settings.target_objval| ≥ settings.eps_zero
    then |settings.target_objval| else 1
  let gap_shift :=
    if is_best_fast then (get_fast_error_bounds settings fmin).2 else 0
  (fmin + gap_shift - settings.target_objval) / gap_den

/-- Numpy `np.median`: middle element of the sorted values for odd length, mean
of the two middle elements for even length. -/
def median (l : List ℚ) : ℚ :=
  let s := l.insertionSort (· ≤ ·)
  if l.length % 2 = 1 then s.getD (l.length / 2) 0
  else (s.getD (l.length / 2 - 1) 0 + s.getD (l.length / 2) 0) / 2

/-- Source `get_sigma_n`: the recursive target-value schedule.  The source
asserts `current_step >= 1`; the unreachable `current_step = 0` case is
given the base value.  `int(math.floor((k - ni) / g))` is the floor of the
exact quotient, here `⌊((k : ℚ) - ni) / g⌋` (the source would raise
`ZeroDivisionError` for `g = 0` with `current_step > 1`; over `ℚ` the
quotient is then the junk value `0`, and every theorem below assumes
`g ≥ 1`). -/
def get_sigma_n (k : ℤ) (current_step : ℕ)
    (num_global_searches num_initial_points : ℤ) : ℤ :=
  match current_step with
  | 0 => k - 1
  | 1 => k - 1
  | s + 2 =>
    get_sigma_n k (s + 1) num_global_searches num_initial_points -
      ⌊((k : ℚ) - (num_initial_points : ℚ)) / (num_global_searches : ℚ)⌋

/-- Source `transform_function_values`: dynamism clipping followed by range
scaling.  Python leaves `clip_val` unassigned when the dynamism trigger
holds but the clipping mode is an unrecognized string, and then crashes
with `NameError`; that unreachable-in-practice branch is the first
`Except.error`.  An unrecognized scaling mode raises `ValueError`. -/
def transform_function_values (log : ℚ → ℚ) (settings : RbfSettings)
    (node_val : List ℚ) (fmin fmax : ℚ) (fast_node_index : List ℕ) :
    Except String (List ℚ × ℚ × ℚ × List (ℚ × ℚ)) :=
  let clipped : Except String (List ℚ × ℚ) :=
    if settings.dynamism_clipping ≠ "off" ∧
        ((|fmin| > settings.eps_zero ∧
          |fmax| / |fmin| > settings.dynamism_threshold) ∨
         (|fmin| ≤ settings.eps_zero ∧
          |fmax| > settings.dynamism_threshold)) then
      if settings.dynamism_clipping = "median" then
        let med := median node_val
        Except.ok (node_val.map (fun v => min v med), med)
      else if settings.dynamism_clipping = "clip_at_dyn" then
        let mult := if |fmin| > settings.eps_zero then |fmin| else 1
        Except.ok
          (node_val.map (fun v => min v (settings.dynamism_threshold * mult)),
           settings.dynamism_threshold * mult)
      else Except.error "NameError: name clip_val is not defined"
    else Except.ok (node_val, fmax)
  clipped.bind (fun r =>
    let clip_val := r.1
    let fmax := r.2
    let fast_vals := fast_node_index.map (fun i => clip_val.getD i 0)
    if settings.function_scaling = "off" then
      Except.ok (clip_val, fmin, fmax,
        if fast_node_index.length ≠ 0
        then bulk_get_fast_error_bounds settings fast_vals else [])
    else if settings.function_scaling = "affine" then
      let denom :=
        if fmax - fmin > settings.eps_zero then fmax - fmin else 1
      Except.ok (clip_val.map (fun v => (v - fmin) / denom), 0,
        if fmax - fmin > settings.eps_zero then 1 else 0,
        if fast_node_index.length ≠ 0
        then (bulk_get_fast_error_bounds settings fast_vals).map
          (fun b => (b.1 / denom, b.2 / denom))
        else [])
    else if settings.function_scaling = "log" then
      let shift :=
        if fast_node_index.length = 0 then max 0 (1 - fmin)
        else max 0 (1 - fmin - (get_fast_error_bounds settings fmin).1)
      let scaled_err_b :=
        if fast_node_index.length ≠ 0 then
          fast_vals.map (fun v =>
            let eb := get_fast_error_bounds settings v
            (log ((v + shift + eb.1) / (v + shift)),
             log ((v + shift + eb.2) / (v + shift))))
        else []
      Except.ok (clip_val.map (fun v => log (v + shift)),
        log (fmin + shift), log (fmax + shift), scaled_err_b)
    else
      Except.error ("Function scaling \"" ++ settings.function_scaling ++
        "\" not implemented"))

/-- Source `transform_domain`: domain rescaling of a single point.  Mode `off`
returns a copy of the point; mode `affine` maps the box to the unit
hypercube (forward direction substitutes divisor 1 for zero-width
dimensions) or applies the reverse affine map; any other mode raises
`ValueError`. -/
def transform_domain (settings : RbfSettings)
    (var_lower var_upper point : List ℚ) (reverse : Bool) :
    Except String (List ℚ) :=
  if settings.domain_scaling = "off" then Except.ok point
  else if settings.domain_scaling = "affine" then
    if reverse then
      Except.ok (zipWith3 (fun x lo hi => x * (hi - lo) + lo)
        point var_lower var_upper)
    else
      Except.ok (zipWith3
        (fun x lo hi => (x - lo) / (if hi - lo = 0 then 1 else hi - lo))
        point var_lower var_upper)
  else
    Except.error ("Domain scaling \"" ++ settings.domain_scaling ++
      "\" not implemented")

/-- Descending scan of `for i in reversed(range(len(results)))`: starting
below index `m`, return the largest index `i < m` whose handle is ready,
or `results.length` if none is. -/
def find_ready_down (results : List Bool) : ℕ → ℕ
  | 0 => results.length
  | i + 1 => if results.getD i false = true then i else find_ready_down results i

/-- Source `get_one_ready_index`: index of the last (largest-index) ready
computation, or `results.length` if none is ready.  Each handle is
modelled by the Boolean answer of its `ready()` query. -/
def get_one_ready_index (results : List Bool) : ℕ :=
  find_ready_down results results.length

/-- Concrete settings bundle used by example scenarios and witnesses:
cubic kernel, affine domain scaling, no function scaling, median clipping,
dynamism threshold 1000, zero tolerance 10^-10, relative fast error 0.1,
absolute fast error 0.01, target objective 0. -/
def settings0 : RbfSettings :=
  ⟨"cubic", "affine", "off", "median", 1000, 1 / 10 ^ 10, 1 / 10, 1 / 100, 0⟩

/-- Settings bundle whose kernel name "gaussian" is not recognized. -/
def settings_gaussian : RbfSettings :=
  ⟨"gaussian", "affine", "off", "median", 1000, 1 / 10 ^ 10, 1 / 10, 1 / 100, 0⟩

/-- C6: `compute_gap` returns `(fmin + shift - target) / denominator`,
where the denominator is `|target|` when `|target| ≥ eps_zero` and `1`
otherwise, and the shift is the upper fast-error bound of `fmin` when the
best point is a fast evaluation and `0` otherwise. -/
theorem C6_compute_gap_formula (settings : RbfSettings) (fmin : ℚ)
    (is_best_fast : Bool) :
    compute_gap settings fmin is_best_fast =
      (fmin +
        (if is_best_fast then (get_fast_error_bounds settings fmin).2 else 0) -
        settings.target_objval) /
      (if |settings.target_objval| ≥ settings.eps_zero
       then |settings.target_objval| else 1) := rfl

/-- C8: `get_fast_error_bounds` returns the pair
`(-(|v| rel + abs), |v| rel + abs)`; on `rel = 0.1`, `abs = 0.01`,
`v = -5` it returns `(-0.51, 0.51)`; and row `i` of
`bulk_get_fast_error_bounds` equals `get_fast_error_bounds` applied to the
`i`-th value. -/
theorem C8_fast_error_bounds :
    (∀ (settings : RbfSettings) (v : ℚ),
      get_fast_error_bounds settings v =
        (-(|v| * settings.fast_objfun_rel_error +
            settings.fast_objfun_abs_error),
         |v| * settings.fast_objfun_rel_error +
           settings.fast_objfun_abs_error)) ∧
    get_fast_error_bounds settings0 (-5) = (-(51 / 100), 51 / 100) ∧
    (∀ (settings : RbfSettings) (values : List ℚ) (i : ℕ),
      i < values.length →
      (bulk_get_fast_error_bounds settings values).getD i (0, 0) =
        get_fast_error_bounds settings (values.getD i 0)) := by
  refine ⟨fun settings v => ?_,
    by norm_num [get_fast_error_bounds, settings0], fun settings values => ?_⟩
  · unfold get_fast_error_bounds
    simp only [Prod.mk.injEq]
    exact ⟨by ring, trivial⟩
  · induction values with
    | nil => intro i hi; simp at hi
    | cons x xs ih =>
      intro i hi
      cases i with
      | zero => rfl
      | succ j =>
        have hj : j < xs.length := by
          simp only [List.length_cons] at hi
          omega
        exact ih j hj

/-- C8 witness: row 1 of the bulk bounds for `[2, -5]` equals the single
bounds of `-5`. -/
theorem C8_witness :
    (bulk_get_fast_error_bounds settings0 [2, -5]).getD 1 (0, 0) =
      get_fast_error_bounds settings0 (([2, -5] : List ℚ).getD 1 0) :=
  C8_fast_error_bounds.2.2 settings0 [2, -5] 1 (by decide)

/-- C5: the recursive schedule of `get_sigma_n`: base case
`current_step = 1` gives `k - 1` for every `num_global_searches`; for
`current_step > 1` with `num_global_searches ≥ 1` each step subtracts
`floor((k - num_initial_points) / num_global_searches)`; and the two
example scenarios `get_sigma_n 10 1 3 3 = 9`, `get_sigma_n 10 2 3 3 = 7`. -/
theorem C5_sigma_n_schedule :
    (∀ (k g ni : ℤ), get_sigma_n k 1 g ni = k - 1) ∧
    (∀ (k g ni : ℤ) (step : ℕ), 2 ≤ step → 1 ≤ g →
      get_sigma_n k step g ni =
        get_sigma_n k (step - 1) g ni - ⌊((k : ℚ) - (ni : ℚ)) / (g : ℚ)⌋) ∧
    get_sigma_n 10 1 3 3 = 9 ∧ get_sigma_n 10 2 3 3 = 7 := by
  refine ⟨fun k g ni => rfl, ?_, rfl, ?_⟩
  · intro k g ni step h2 _
    match step, h2 with
    | s + 2, _ => rfl
  · show (10 : ℤ) - 1 - ⌊((10 : ℚ) - (3 : ℚ)) / (3 : ℚ)⌋ = 7
    norm_num

/-- C5 witness: the recursive step applied at
`k = 10, current_step = 2, g = 3, ni = 3`. -/
theorem C5_witness :
    get_sigma_n 10 2 3 3 =
      get_sigma_n 10 1 3 3 - ⌊((10 : ℚ) - (3 : ℚ)) / (3 : ℚ)⌋ :=
  C5_sigma_n_schedule.2.1 10 3 3 2 (by norm_num) (by norm_num)

/-- Closed form of the schedule, by induction on the number of steps. -/
theorem sigma_n_closed_aux (k g ni : ℤ) :
    ∀ s : ℕ, get_sigma_n k (s + 1) g ni =
      (k - 1) - (s : ℤ) * ⌊((k : ℚ) - (ni : ℚ)) / (g : ℚ)⌋ := by
  intro s
  induction s with
  | zero => simp [get_sigma_n]
  | succ t ih =>
    show get_sigma_n k (t + 2) g ni = _
    rw [show get_sigma_n k (t + 2) g ni =
        get_sigma_n k (t + 1) g ni -
          ⌊((k : ℚ) - (ni : ℚ)) / (g : ℚ)⌋ from rfl, ih]
    push_cast
    ring

/-- C10: closed form of the schedule: for every `current_step ≥ 1` and
`num_global_searches ≥ 1`,
`get_sigma_n k step g ni = (k - 1) - (step - 1) * floor((k - ni) / g)`;
each step of the cycle lowers the index by the same fixed amount, and the
(structural) recursion terminates on every such input. -/
theorem C10_sigma_n_closed_form (k g ni : ℤ) (step : ℕ) (h1 : 1 ≤ step)
    (hg : 1 ≤ g) :
    get_sigma_n k step g ni =
      (k - 1) - ((step : ℤ) - 1) * ⌊((k : ℚ) - (ni : ℚ)) / (g : ℚ)⌋ := by
  match step, h1 with
  | s + 1, _ =>
    rw [sigma_n_closed_aux k g ni s]
    push_cast
    ring

/-- C10 witness: the closed form evaluated at
`k = 10, current_step = 3, g = 3, ni = 3`. -/
theorem C10_witness :
    get_sigma_n 10 3 3 3 =
      (10 - 1) - ((3 : ℤ) - 1) * ⌊((10 : ℚ) - (3 : ℚ)) / (3 : ℚ)⌋ :=
  C10_sigma_n_closed_form 10 3 3 3 (by norm_num) (by norm_num)

/-- C1 counterexample: when the numeric solve of the RBF linear system
fails on a singular matrix, `get_rbf_coefficients` does NOT report a
numerical-failure condition to its caller: it terminates the process via
`sys.exit()`, so the caller cannot decide whether to regenerate the node
set or abort.  The input respects the code's shape contract: with the
cubic kernel, `n = 1`, `k = 2`, we have `p = n + 1 = 2`, `node_val` has
length `k = 2`, and `Amat` is the `(k+p) × (k+p) = 4 × 4` all-zero
matrix, which is singular, so `np.linalg.solve` on it raises
`LinAlgError` (the failing-solve oracle) and the `except` clause runs
`sys.exit()`. -/
theorem C1_counterexample :
    get_rbf_coefficients (fun _ _ => none) settings0 1 2
        [[0, 0, 0, 0], [0, 0, 0, 0], [0, 0, 0, 0], [0, 0, 0, 0]]
        [1, 2] = PyResult.exited ∧
    isRaised (get_rbf_coefficients (fun _ _ => none) settings0 1 2
        [[0, 0, 0, 0], [0, 0, 0, 0], [0, 0, 0, 0], [0, 0, 0, 0]]
        [1, 2]) = false :=
  ⟨rfl, rfl⟩

/-- C1 (amended): `get_matrix_inverse` propagates an inversion failure to
the caller by re-raising the `LinAlgError` and never substitutes a default
value; `get_rbf_coefficients` never converts a solve failure into a
default value either, but on a failing solve it terminates the process
(`sys.exit()`) instead of raising a numerical-failure condition, so only
the caller of `get_matrix_inverse` can decide to regenerate or abort. -/
theorem C1_numerical_failure_amended
    (inv : List (List ℚ) → Option (List (List ℚ)))
    (solve : List (List ℚ) → List ℚ → Option (List ℚ))
    (settings : RbfSettings) (n k : ℕ) (Amat : List (List ℚ))
    (node_val : List ℚ) :
    (inv Amat = none →
      get_matrix_inverse inv settings Amat = .raised "LinAlgError") ∧
    (∀ M, inv Amat = some M →
      get_matrix_inverse inv settings Amat =
        .ok (zero_out_small settings.eps_zero M)) ∧
    (solve Amat
        (node_val ++ List.replicate (get_size_P_matrix settings n) 0) =
          none →
      get_rbf_coefficients solve settings n k Amat node_val = .exited) ∧
    (∀ lam hcoef,
      get_rbf_coefficients solve settings n k Amat node_val =
        .ok (lam, hcoef) →
      ∃ sol,
        solve Amat
          (node_val ++ List.replicate (get_size_P_matrix settings n) 0) =
            some sol ∧
        lam = sol.take k ∧ hcoef = sol.drop k) := by
  refine ⟨?_, ?_, ?_, ?_⟩
  · intro hnone
    simp [get_matrix_inverse, hnone]
  · intro M hsome
    simp [get_matrix_inverse, hsome]
  · intro hnone
    simp [get_rbf_coefficients, hnone]
  · intro lam hcoef hok
    rcases hsol : solve Amat
        (node_val ++ List.replicate (get_size_P_matrix settings n) 0) with
      _ | sol
    · have hex : get_rbf_coefficients solve settings n k Amat node_val =
          .exited := by
        simp [get_rbf_coefficients, hsol]
      rw [hex] at hok
      cases hok
    · have hco : get_rbf_coefficients solve settings n k Amat node_val =
          .ok (sol.take k, sol.drop k) := by
        simp [get_rbf_coefficients, hsol]
      rw [hco] at hok
      simp only [PyResult.ok.injEq, Prod.mk.injEq] at hok
      exact ⟨sol, rfl, hok.1.symm, hok.2.symm⟩

/-- C1 witness: the amended claim instantiated with a failing inversion
oracle on a concrete matrix. -/
theorem C1_witness :
    get_matrix_inverse (fun _ => none) settings0 [[0, 0], [0, 0]] =
      .raised "LinAlgError" :=
  (C1_numerical_failure_amended (fun _ => none) (fun _ _ => none) settings0
    1 2 [[0, 0], [0, 0]] []).1 rfl

/-- C2 counterexample: for the unrecognized kernel name "gaussian",
`get_rbf_function` does not fail fast with a descriptive error: it
silently returns the absent value `None`. -/
theorem C2_counterexample :
    get_rbf_function id id settings_gaussian = none := rfl

/-- C2 (amended): for a kernel name outside
{cubic, thin_plate_spline, linear, multiquadric}, `get_rbf_matrix` fails
fast with a `ValueError` naming the offending kernel, while
`get_rbf_function` silently returns the absent value `None` instead of
raising. -/
theorem C2_kernel_dispatch_amended (log sqrt : ℚ → ℚ)
    (settings : RbfSettings) (n k : ℕ) (node_pos : List (List ℚ))
    (hcu : settings.rbf ≠ "cubic")
    (hth : settings.rbf ≠ "thin_plate_spline")
    (hli : settings.rbf ≠ "linear")
    (hmu : settings.rbf ≠ "multiquadric") :
    get_rbf_function log sqrt settings = none ∧
    get_rbf_matrix log sqrt settings n k node_pos =
      Except.error ("Rbf \"" ++ settings.rbf ++ "\" not implemented yet") := by
  have hf : get_rbf_function log sqrt settings = none := by
    simp [get_rbf_function, hcu, hth, hli, hmu]
  refine ⟨hf, ?_⟩
  unfold get_rbf_matrix
  rw [hf]

/-- C2 witness: the amended claim instantiated at the kernel name
"gaussian". -/
theorem C2_witness :
    get_rbf_function id id settings_gaussian = none ∧
    get_rbf_matrix id id settings_gaussian 1 2 [] =
      Except.error
        ("Rbf \"" ++ settings_gaussian.rbf ++ "\" not implemented yet") :=
  C2_kernel_dispatch_amended id id settings_gaussian 1 2 []
    (by decide) (by decide) (by decide) (by decide)

/-- Componentwise inverse of the affine forward map on a box with positive
width in every dimension. -/
theorem affine_roundtrip_aux (var_lower var_upper : List ℚ)
    (hbox : List.Forall₂ (· < ·) var_lower var_upper) :
    ∀ point : List ℚ, point.length = var_lower.length →
      zipWith3 (fun x lo hi => x * (hi - lo) + lo)
        (zipWith3
          (fun x lo hi => (x - lo) / (if hi - lo = 0 then 1 else hi - lo))
          point var_lower var_upper) var_lower var_upper = point := by
  induction hbox with
  | nil =>
    intro point hlen
    rw [List.length_nil, List.length_eq_zero] at hlen
    subst hlen
    rfl
  | @cons lo hi l u hlt _ ih =>
    intro point hlen
    cases point with
    | nil => simp at hlen
    | cons x xs =>
      have hne : hi - lo ≠ 0 := sub_ne_zero.mpr (ne_of_gt hlt)
      simp only [zipWith3, List.cons.injEq]
      refine ⟨?_, ih xs (by simpa using hlen)⟩
      rw [if_neg hne, div_mul_cancel₀ _ hne]
      ring

/-- C4: on any box with positive width in every dimension, applying
`transform_domain` forward and then in reverse returns the original point,
in both the `off` and the `affine` domain-scaling modes (over exact
arithmetic). -/
theorem C4_transform_domain_roundtrip (settings : RbfSettings)
    (var_lower var_upper point : List ℚ)
    (hmode : settings.domain_scaling = "off" ∨
      settings.domain_scaling = "affine")
    (hbox : List.Forall₂ (· < ·) var_lower var_upper)
    (hlen : point.length = var_lower.length) :
    (transform_domain settings var_lower var_upper point false).bind
      (fun q => transform_domain settings var_lower var_upper q true) =
      Except.ok point := by
  rcases hmode with h | h
  · simp [transform_domain, h, Except.bind]
  · have hno : ¬ (("affine" : String) = "off") := by decide
    simp only [transform_domain, h, if_neg hno]
    exact congrArg Except.ok
      (affine_roundtrip_aux var_lower var_upper hbox point hlen)

/-- C4 witness: roundtrip through the affine map on the box
`[0,2] × [-1,3]` at the point `(1,1)`. -/
theorem C4_witness :
    (transform_domain settings0 [0, -1] [2, 3] [1, 1] false).bind
      (fun q => transform_domain settings0 [0, -1] [2, 3] q true) =
      Except.ok [1, 1] :=
  C4_transform_domain_roundtrip settings0 [0, -1] [2, 3] [1, 1]
    (Or.inr rfl)
    (List.Forall₂.cons (by norm_num)
      (List.Forall₂.cons (by norm_num) List.Forall₂.nil))
    rfl

/-- If no index below `m` is ready, the descending scan reports the
not-found sentinel. -/
theorem find_ready_down_all_false (rs : List Bool) :
    ∀ m : ℕ, (∀ i, i < m → rs.getD i false = false) →
      find_ready_down rs m = rs.length := by
  intro m
  induction m with
  | zero => intro _; rfl
  | succ t ih =>
    intro hall
    have ht : rs.getD t false = false := hall t (Nat.lt_succ_self t)
    have htail := ih (fun i hi => hall i (Nat.lt_succ_of_lt hi))
    have hif : find_ready_down rs (t + 1) =
        if rs.getD t false = true then t else find_ready_down rs t := rfl
    rw [hif, ht]
    simpa using htail

/-- If some index below `m` is ready, the descending scan returns a ready
index below `m` that is at least as large. -/
theorem find_ready_down_found (rs : List Bool) :
    ∀ m i : ℕ, i < m → rs.getD i false = true →
      find_ready_down rs m < m ∧
      rs.getD (find_ready_down rs m) false = true ∧
      i ≤ find_ready_down rs m := by
  intro m
  induction m with
  | zero => intro i hi _; exact absurd hi (Nat.not_lt_zero i)
  | succ t ih =>
    intro i hi htrue
    by_cases hv : rs.getD t false = true
    · have hstep : find_ready_down rs (t + 1) = t := by
        rw [show find_ready_down rs (t + 1) =
          if rs.getD t false = true then t else find_ready_down rs t
          from rfl, hv]
        simp
      rw [hstep]
      exact ⟨Nat.lt_succ_self t, hv, Nat.lt_succ_iff.mp hi⟩
    · have hvf : rs.getD t false = false := by
        cases hb : rs.getD t false
        · rfl
        · exact absurd hb hv
      have hi' : i < t := by
        rcases Nat.lt_succ_iff_lt_or_eq.mp hi with hlt | heq
        · exact hlt
        · exact absurd (heq ▸ htrue) hv
      have hstep : find_ready_down rs (t + 1) = find_ready_down rs t := by
        rw [show find_ready_down rs (t + 1) =
          if rs.getD t false = true then t else find_ready_down rs t
          from rfl, hvf]
        simp
      rw [hstep]
      obtain ⟨h1, h2, h3⟩ := ih i hi' htrue
      exact ⟨Nat.lt_succ_of_lt h1, h2, h3⟩

/-- C9: `get_one_ready_index` returns the collection length (the
not-found sentinel) exactly when no handle is ready; otherwise it returns
an index whose handle is ready, and that index is the largest ready one
(the most recently completed). -/
theorem C9_one_ready_index (results : List Bool) :
    (get_one_ready_index results = results.length ↔
      ∀ i, i < results.length → results.getD i false = false) ∧
    (∀ i, i < results.length → results.getD i false = true →
      get_one_ready_index results < results.length ∧
      results.getD (get_one_ready_index results) false = true ∧
      i ≤ get_one_ready_index results) := by
  constructor
  · constructor
    · intro hlen i hi
      by_contra hne
      have htrue : results.getD i false = true := by
        cases hb : results.getD i false
        · exact absurd hb hne
        · rfl
      obtain ⟨h1, _, _⟩ :=
        find_ready_down_found results results.length i hi htrue
      have hdef : get_one_ready_index results =
          find_ready_down results results.length := rfl
      omega
    · intro hall
      exact find_ready_down_all_false results results.length hall
  · intro i hi htrue
    exact find_ready_down_found results results.length i hi htrue

/-- C9 witness: on the handle list `[true, false]` the only ready handle
is at index 0, and the query returns it. -/
theorem C9_witness :
    get_one_ready_index [true, false] < 2 ∧
    ([true, false]).getD (get_one_ready_index [true, false]) false = true ∧
    0 ≤ get_one_ready_index [true, false] :=
  (C9_one_ready_index [true, false]).2 0 (by decide) (by decide)

/-- The choice list for dimension `n + 1` is the lower-bound block
followed by the upper-bound block. -/
theorem corner_choices_succ (n : ℕ) :
    corner_choices (n + 1) =
      (corner_choices n).map (fun c => false :: c) ++
      (corner_choices n).map (fun c => true :: c) := by
  simp [corner_choices]

/-- There are `2 ^ n` choice vectors. -/
theorem corner_choices_length (n : ℕ) :
    (corner_choices n).length = 2 ^ n := by
  induction n with
  | zero => rfl
  | succ t ih =>
    rw [corner_choices_succ]
    simp [ih, pow_succ]
    ring

/-- Every choice vector for dimension `n` has length `n`. -/
theorem corner_choices_mem_length {n : ℕ} :
    ∀ c ∈ corner_choices n, c.length = n := by
  induction n with
  | zero =>
    intro c hc
    simp [corner_choices] at hc
    simp [hc]
  | succ t ih =>
    intro c hc
    rw [corner_choices_succ] at hc
    rcases List.mem_append.mp hc with hm | hm <;>
      · obtain ⟨d, hd, rfl⟩ := List.mem_map.mp hm
        simp [ih d hd]

/-- Every Boolean vector of length `n` occurs among the choice vectors. -/
theorem corner_choices_complete {n : ℕ} :
    ∀ c : List Bool, c.length = n → c ∈ corner_choices n := by
  induction n with
  | zero =>
    intro c hc
    rw [List.length_eq_zero] at hc
    simp [corner_choices, hc]
  | succ t ih =>
    intro c hc
    cases c with
    | nil => simp at hc
    | cons b d =>
      have hd : d ∈ corner_choices t := ih d (by simpa using hc)
      rw [corner_choices_succ]
      cases b
      · exact List.mem_append_left _ (List.mem_map.mpr ⟨d, hd, rfl⟩)
      · exact List.mem_append_right _ (List.mem_map.mpr ⟨d, hd, rfl⟩)

/-- The choice vectors are pairwise distinct. -/
theorem corner_choices_nodup (n : ℕ) : (corner_choices n).Nodup := by
  induction n with
  | zero => simp [corner_choices]
  | succ t ih =>
    rw [corner_choices_succ]
    refine List.Nodup.append ?_ ?_ ?_
    · exact ih.map (fun x y hxy => by injection hxy)
    · exact ih.map (fun x y hxy => by injection hxy)
    · intro c hc hc'
      obtain ⟨d, _, rfl⟩ := List.mem_map.mp hc
      obtain ⟨d', _, heq⟩ := List.mem_map.mp hc'
      injection heq with hb _
      cases hb

/-- On a box whose bounds differ in every coordinate, distinct choice
vectors of full length select distinct corner points. -/
theorem corner_point_inj (var_lower var_upper : List ℚ)
    (hne : List.Forall₂ (· ≠ ·) var_lower var_upper) :
    ∀ c c' : List Bool, c.length = var_lower.length →
      c'.length = var_lower.length →
      corner_point var_lower var_upper c =
        corner_point var_lower var_upper c' → c = c' := by
  induction hne with
  | nil =>
    intro c c' hc hc' _
    rw [List.length_nil, List.length_eq_zero] at hc hc'
    rw [hc, hc']
  | @cons lo hi l u hlu _ ih =>
    intro c c' hc hc' heq
    cases c with
    | nil => simp at hc
    | cons x xs =>
      cases c' with
      | nil => simp at hc'
      | cons y ys =>
        simp only [corner_point, zipWith3, List.cons.injEq] at heq
        have hxy : x = y := by
          cases x <;> cases y
          · rfl
          · simp only [if_true, if_false] at heq
            exact absurd heq.1 hlu
          · simp only [if_true, if_false] at heq
            exact absurd heq.1.symm hlu
          · rfl
        rw [hxy]
        have hrest : xs = ys :=
          ih xs ys (by simpa using hc) (by simpa using hc') heq.2
        rw [hrest]

/-- Coordinate `j` of a selected corner point is the corresponding lower
or upper bound. -/
theorem corner_point_coord :
    ∀ (c : List Bool) (var_lower var_upper : List ℚ) (j : ℕ),
      j < var_lower.length → c.length = var_lower.length →
      var_lower.length = var_upper.length →
      (corner_point var_lower var_upper c).getD j 0 =
          var_lower.getD j 0 ∨
        (corner_point var_lower var_upper c).getD j 0 =
          var_upper.getD j 0 := by
  intro c
  induction c with
  | nil =>
    intro l u j hj hc _
    rw [← hc] at hj
    exact absurd hj (Nat.not_lt_zero j)
  | cons b bs ih =>
    intro l u j hj hc hlu
    cases l with
    | nil => simp at hc
    | cons lo l' =>
      cases u with
      | nil => simp at hlu
      | cons hi u' =>
        cases j with
        | zero =>
          cases b
          · left; rfl
          · right; rfl
        | succ t =>
          have := ih l' u' t (by simpa using hj) (by simpa using hc)
            (by simpa using hlu)
          simpa [corner_point, zipWith3, List.getD_cons_succ] using this

/-- C3 counterexample: on the degenerate box `[0,0]` the two returned
corner points coincide, so the points are not pairwise distinct as the
claim states for every pair of bound vectors. -/
theorem C3_counterexample :
    get_all_corners [(0 : ℚ)] [0] = [[0], [0]] ∧
    ¬ (get_all_corners [(0 : ℚ)] [0]).Nodup := by
  constructor
  · rfl
  · rw [show get_all_corners [(0 : ℚ)] [0] = [[0], [0]] from rfl]
    simp

/-- C3 (amended): for every pair of bound vectors of equal length `n`,
`get_all_corners` returns exactly `2 ^ n` points, each point coordinate
equal to the corresponding lower or upper bound, with every lower/upper
combination occurring; when additionally `var_lower[j] ≠ var_upper[j]` in
every coordinate `j`, the `2 ^ n` points are pairwise distinct.  (On a
box with some `var_lower[j] = var_upper[j]` the count, coordinate and
combination statements still hold but the points are not pairwise
distinct.) -/
theorem C3_all_corners_amended (var_lower var_upper : List ℚ)
    (hlen : var_lower.length = var_upper.length) :
    (get_all_corners var_lower var_upper).length = 2 ^ var_lower.length ∧
    (∀ row ∈ get_all_corners var_lower var_upper,
      ∀ j, j < var_lower.length →
        row.getD j 0 = var_lower.getD j 0 ∨
        row.getD j 0 = var_upper.getD j 0) ∧
    (∀ c : List Bool, c.length = var_lower.length →
      corner_point var_lower var_upper c ∈
        get_all_corners var_lower var_upper) ∧
    (List.Forall₂ (· ≠ ·) var_lower var_upper →
      (get_all_corners var_lower var_upper).Nodup) := by
  refine ⟨?_, ?_, ?_, ?_⟩
  · rw [get_all_corners, List.length_map, corner_choices_length]
  · intro row hrow j hj
    obtain ⟨c, hc, rfl⟩ := List.mem_map.mp hrow
    exact corner_point_coord c var_lower var_upper j hj
      (corner_choices_mem_length c hc) hlen
  · intro c hc
    exact List.mem_map.mpr ⟨c, corner_choices_complete c hc, rfl⟩
  · intro hne
    exact List.Nodup.map_on
      (fun c hc c' hc' heq =>
        corner_point_inj var_lower var_upper hne c c'
          (corner_choices_mem_length c hc)
          (corner_choices_mem_length c' hc') heq)
      (corner_choices_nodup var_lower.length)

/-- C3 witness: on the box `[0,1]` the upper corner selected by the
choice vector `[true]` is among the returned corners, and the returned
corners are pairwise distinct since `0 ≠ 1`. -/
theorem C3_witness :
    corner_point [(0 : ℚ)] [1] [true] ∈ get_all_corners [(0 : ℚ)] [1] ∧
    (get_all_corners [(0 : ℚ)] [1]).Nodup :=
  ⟨(C3_all_corners_amended [0] [1] rfl).2.2.1 [true] rfl,
   (C3_all_corners_amended [0] [1] rfl).2.2.2
     (List.Forall₂.cons (by norm_num) List.Forall₂.nil)⟩

/-- Settings with median dynamism clipping and no function scaling:
dynamism threshold 10, zero tolerance 1/1000. -/
def settings_median_off : RbfSettings :=
  ⟨"cubic", "off", "off", "median", 10, 1 / 1000, 1 / 10, 1 / 100, 0⟩

/-- Settings with median dynamism clipping and affine function scaling:
dynamism threshold 10, zero tolerance 1/1000. -/
def settings_median_affine : RbfSettings :=
  ⟨"cubic", "off", "affine", "median", 10, 1 / 1000, 1 / 10, 1 / 100, 0⟩

/-- C7 (amended): with dynamism clipping "median", a firing dynamism
trigger, and function scaling "off" (no subsequent range rescaling),
`transform_function_values` returns values none of which exceeds the
median of the input values taken before clipping, and the returned fmax
equals that median.  (Under affine or log function scaling the subsequent
range rescaling replaces the returned fmax by its scaled image, so it no
longer equals the pre-clip median.) -/
theorem C7_median_clipping_amended (log : ℚ → ℚ) (settings : RbfSettings)
    (node_val : List ℚ) (fmin fmax : ℚ) (fast_node_index : List ℕ)
    (hclip : settings.dynamism_clipping = "median")
    (hscale : settings.function_scaling = "off")
    (htrig : (|fmin| > settings.eps_zero ∧
        |fmax| / |fmin| > settings.dynamism_threshold) ∨
      (|fmin| ≤ settings.eps_zero ∧
        |fmax| > settings.dynamism_threshold)) :
    ∃ vals f1 eb,
      transform_function_values log settings node_val fmin fmax
          fast_node_index =
        Except.ok (vals, f1, median node_val, eb) ∧
      ∀ v ∈ vals, v ≤ median node_val := by
  have hcond : settings.dynamism_clipping ≠ "off" ∧
      ((|fmin| > settings.eps_zero ∧
        |fmax| / |fmin| > settings.dynamism_threshold) ∨
       (|fmin| ≤ settings.eps_zero ∧
        |fmax| > settings.dynamism_threshold)) := by
    refine ⟨?_, htrig⟩
    rw [hclip]
    decide
  refine ⟨node_val.map (fun v => min v (median node_val)), fmin,
    (if fast_node_index.length ≠ 0
     then bulk_get_fast_error_bounds settings
       (fast_node_index.map (fun i =>
         (node_val.map (fun v => min v (median node_val))).getD i 0))
     else []), ?_, ?_⟩
  · simp only [transform_function_values]
    rw [if_pos hcond, if_pos hclip]
    simp only [Except.bind]
    rw [if_pos hscale]
  · intro v hv
    obtain ⟨w, _, rfl⟩ := List.mem_map.mp hv
    exact min_le_right w (median node_val)

/-- C7 witness: the amended claim at concrete inputs: values `[1, 100]`,
fmin 1, fmax 100, threshold 10 (trigger fires since `100/1 > 10`), no fast
evaluations. -/
theorem C7_witness :
    ∃ vals f1 eb,
      transform_function_values id settings_median_off [1, 100] 1 100 [] =
        Except.ok (vals, f1, median [1, 100], eb) ∧
      ∀ v ∈ vals, v ≤ median [1, 100] :=
  C7_median_clipping_amended id settings_median_off [1, 100] 1 100 []
    rfl rfl
    (Or.inl ⟨by norm_num [settings_median_off],
      by norm_num [settings_median_off]⟩)

/-- C7 counterexample: same clipping settings but with affine function
scaling: the trigger fires, the pre-clip median is `101/2`, yet the
returned fmax is the affinely rescaled value `1`, not the median. -/
theorem C7_counterexample :
    transform_function_values id settings_median_affine [1, 100] 1 100 [] =
      Except.ok ([0, 1], 0, 1, []) ∧
    (1 : ℚ) ≠ median [1, 100] := by
  constructor
  · norm_num [transform_function_values, settings_median_affine, median,
      List.insertionSort, List.orderedInsert, min_def, Except.bind,
      bulk_get_fast_error_bounds]
    simp only [if_neg (show ¬ (("median" : String) = "off") by decide),
      if_neg (show ¬ (("affine" : String) = "off") by decide)]
    norm_num
  · norm_num [median, List.insertionSort, List.orderedInsert]
